import Mathlib

/-
Verification development for the rocicorp/logger package (src/logger.ts,
latest revision: the four-level, Context-aware version).

The TypeScript source is shallowly embedded:
- JavaScript runtime values that can be logged are modelled by the inductive
  type JSValue (strings, numbers as integers, booleans, null, undefined,
  symbols, bigints, functions with abstracted bodies, plain objects as
  ordered association lists mirroring property insertion order, arrays, and
  Error instances carrying name / message / stack and an optional cause
  property).
- Exceptions are modelled with Except Unit (a thrown TypeError is
  Except.error ()).  Option models partial results where a JavaScript
  expression can either produce a value or throw.
- Promises are modelled by their completion time (a Nat); Promise.all of a
  list of promises completes at the maximum of the completion times, and a
  non-promise value (undefined, from an optional call on a sink without
  flush) completes immediately at time 0.
- A bound logger method is modelled by the argument tuple it passes to the
  log method of the sink it was constructed over (SinkCall).
-/

namespace RociLogger

/-- LogLevel from logger.ts: the four severities, error as highest priority
and debug as lowest (most verbose). -/
inductive LogLevel where
  | error : LogLevel
  | warn : LogLevel
  | info : LogLevel
  | debug : LogLevel
deriving DecidableEq, Repr

/-- Model of a JavaScript runtime value as it can appear among log
arguments or Context values.  Numbers and bigints are modelled as integers
(the claims do not involve fractional values); the body of a function value
is abstracted away (constructor func). An Error instance is modelled by its
name, message and stack strings plus an optional cause: cause = some c
means the cause property is present with value c (c may itself be
JSValue.undefined), cause = none means the property is absent, matching the
"cause in v" presence test in errorReplacer. -/
inductive JSValue where
  | str : String → JSValue
  | num : Int → JSValue
  | bool : Bool → JSValue
  | null : JSValue
  | undefined : JSValue
  | sym : String → JSValue
  | bigint : Int → JSValue
  | func : JSValue
  | obj : List (String × JSValue) → JSValue
  | arr : List JSValue → JSValue
  | jsError : String → String → String → Option JSValue → JSValue

/-- Context from logger.ts: a JavaScript object mapping string keys to
arbitrary values, modelled as an association list in property insertion
order (JavaScript objects with string keys enumerate in insertion order). -/
abbrev Context : Type := List (String × JSValue)

/-- Semantics of the object literal \x7b...base, [key]: value\x7d: if key is
already a property of base it keeps its original position and receives the
new value, otherwise the key/value pair is appended at the end. -/
def setKey : List (String × JSValue) → String → JSValue → List (String × JSValue)
  | [], k, v => [(k, v)]
  | (k0, v0) :: rest, k, v =>
      if k0 = k then (k, v) :: rest else (k0, v0) :: setKey rest k v

/-- Context extension as performed by LogContext.withContext: the object
spread of an optional base (undefined spreads to nothing) followed by a
computed-key assignment. -/
def extend (base : Option Context) (key : String) (value : JSValue) : Context :=
  setKey (base.getD []) key value

/-- Property lookup in the association-list model (first matching key; the
setKey/extend operations never create duplicate keys). -/
def lookupCtx : Context → String → Option JSValue
  | [], _ => none
  | (k0, v0) :: rest, k => if k0 = k then some v0 else lookupCtx rest k

/-- Keys of a Context, in insertion order. -/
def ctxKeys (c : Context) : List String :=
  c.map (fun kv => kv.1)

/-- Hexadecimal digit (lowercase), for JSON control-character escapes. -/
def hexDigit (n : Nat) : Char :=
  if n < 10 then Char.ofNat (48 + n) else Char.ofNat (87 + n)

/-- Escape of a single character inside a JSON string literal, following
the QuoteJSONString algorithm used by JSON.stringify. -/
def escapeJSONChar (c : Char) : String :=
  if c = '"' then "\\\""
  else if c = '\\' then "\\\\"
  else if c = '\x08' then "\\b"
  else if c = '\x09' then "\\t"
  else if c = '\x0a' then "\\n"
  else if c = '\x0c' then "\\f"
  else if c = '\x0d' then "\\r"
  else if c.toNat < 32 then
    "\\u00" ++ String.singleton (hexDigit (c.toNat / 16)) ++ String.singleton (hexDigit (c.toNat % 16))
  else String.singleton c

/-- JSON string literal for s, as produced by JSON.stringify. -/
def quoteJSON (s : String) : String :=
  "\"" ++ String.join (s.toList.map escapeJSONChar) ++ "\""

/-- The errorReplacer function from logger.ts: an Error instance is
replaced by a plain record holding name, message and stack, plus the cause
property when ("cause" in v) holds; every other value is returned
unchanged.  The cause value is copied raw - JSON.stringify later walks into
it and applies the replacer again, which is what projects chained causes. -/
def errorReplacer : JSValue → JSValue
  | .jsError n m s c =>
      .obj ([("name", .str n), ("message", .str m), ("stack", .str s)] ++
        (match c with
         | some cv => [("cause", cv)]
         | none => []))
  | v => v

/-
Model of JSON.stringify(v, errorReplacer) from normalizeArgument.
The result is Except Unit (Option String):
- Except.error () models the TypeError thrown on a bigint;
- Except.ok none models JSON.stringify returning undefined (top-level
  undefined, function or symbol after replacement);
- Except.ok (some s) is the produced JSON text.
Properties whose serialized value is undefined are omitted from objects;
such array elements serialize as null.  The jsError case is the
composition of errorReplacer with the serialization of the resulting plain
record (inlined here so that the recursion is structural: name, message
and stack are strings, and the replacer is applied again to the cause
value by the stringify walk, which is the recursive call on cv).  The
correspondence with errorReplacer is stated in theorem
stringifyWithReplacer_jsError below.
-/
mutual
def stringifyWithReplacer : JSValue → Except Unit (Option String)
  | .str s => .ok (some (quoteJSON s))
  | .num n => .ok (some (toString n))
  | .bool b => .ok (some (cond b "true" "false"))
  | .null => .ok (some "null")
  | .undefined => .ok none
  | .sym _ => .ok none
  | .func => .ok none
  | .bigint _ => .error ()
  | .obj fs =>
      match stringifyFieldsWith fs with
      | .error e => .error e
      | .ok parts => .ok (some ("\x7b" ++ String.intercalate "," parts ++ "\x7d"))
  | .arr es =>
      match stringifyElemsWith es with
      | .error e => .error e
      | .ok parts => .ok (some ("[" ++ String.intercalate "," parts ++ "]"))
  | .jsError n m s c =>
      match c with
      | none =>
          .ok (some ("\x7b" ++ String.intercalate ","
            [quoteJSON "name" ++ ":" ++ quoteJSON n,
             quoteJSON "message" ++ ":" ++ quoteJSON m,
             quoteJSON "stack" ++ ":" ++ quoteJSON s] ++ "\x7d"))
      | some cv =>
          match stringifyWithReplacer cv with
          | .error e => .error e
          | .ok none =>
              .ok (some ("\x7b" ++ String.intercalate ","
                [quoteJSON "name" ++ ":" ++ quoteJSON n,
                 quoteJSON "message" ++ ":" ++ quoteJSON m,
                 quoteJSON "stack" ++ ":" ++ quoteJSON s] ++ "\x7d"))
          | .ok (some cs) =>
              .ok (some ("\x7b" ++ String.intercalate ","
                [quoteJSON "name" ++ ":" ++ quoteJSON n,
                 quoteJSON "message" ++ ":" ++ quoteJSON m,
                 quoteJSON "stack" ++ ":" ++ quoteJSON s,
                 quoteJSON "cause" ++ ":" ++ cs] ++ "\x7d"))
def stringifyFieldsWith : List (String × JSValue) → Except Unit (List String)
  | [] => .ok []
  | (k, v) :: rest =>
      match stringifyWithReplacer v, stringifyFieldsWith rest with
      | .error e, _ => .error e
      | .ok _, .error e => .error e
      | .ok none, .ok tail => .ok tail
      | .ok (some s), .ok tail => .ok ((quoteJSON k ++ ":" ++ s) :: tail)
def stringifyElemsWith : List JSValue → Except Unit (List String)
  | [] => .ok []
  | v :: rest =>
      match stringifyWithReplacer v, stringifyElemsWith rest with
      | .error e, _ => .error e
      | .ok _, .error e => .error e
      | .ok s?, .ok tail => .ok (s?.getD "null" :: tail)
end

/-
Plain JSON.stringify (no replacer).  Spec-side formulation used to compare
against stringifyWithReplacer for claim C7: an Error instance has no own
enumerable properties, so plain JSON.stringify collapses it to "\x7b\x7d".
-/
mutual
def plainStringify : JSValue → Except Unit (Option String)
  | .str s => .ok (some (quoteJSON s))
  | .num n => .ok (some (toString n))
  | .bool b => .ok (some (cond b "true" "false"))
  | .null => .ok (some "null")
  | .undefined => .ok none
  | .sym _ => .ok none
  | .func => .ok none
  | .bigint _ => .error ()
  | .obj fs =>
      match plainStringifyFields fs with
      | .error e => .error e
      | .ok parts => .ok (some ("\x7b" ++ String.intercalate "," parts ++ "\x7d"))
  | .arr es =>
      match plainStringifyElems es with
      | .error e => .error e
      | .ok parts => .ok (some ("[" ++ String.intercalate "," parts ++ "]"))
  | .jsError _ _ _ _ => .ok (some "\x7b\x7d")
def plainStringifyFields : List (String × JSValue) → Except Unit (List String)
  | [] => .ok []
  | (k, v) :: rest =>
      match plainStringify v, plainStringifyFields rest with
      | .error e, _ => .error e
      | .ok _, .error e => .error e
      | .ok none, .ok tail => .ok tail
      | .ok (some s), .ok tail => .ok ((quoteJSON k ++ ":" ++ s) :: tail)
def plainStringifyElems : List JSValue → Except Unit (List String)
  | [] => .ok []
  | v :: rest =>
      match plainStringify v, plainStringifyElems rest with
      | .error e, _ => .error e
      | .ok _, .error e => .error e
      | .ok s?, .ok tail => .ok (s?.getD "null" :: tail)
end

/-
Spec-side deep projection of Error values (section 4.3 of the spec): every
Error-like value encountered at any depth is replaced by a plain record
containing name, message, stack and, when the error carries a cause, a
recursively projected cause field.
-/
mutual
def projectErrors : JSValue → JSValue
  | .jsError n m s c =>
      .obj ([("name", .str n), ("message", .str m), ("stack", .str s)] ++
        (match c with
         | some cv => [("cause", projectErrors cv)]
         | none => []))
  | .obj fs => .obj (projectErrorsFields fs)
  | .arr es => .arr (projectErrorsElems es)
  | v => v
def projectErrorsFields : List (String × JSValue) → List (String × JSValue)
  | [] => []
  | (k, v) :: rest => (k, projectErrors v) :: projectErrorsFields rest
def projectErrorsElems : List JSValue → List JSValue
  | [] => []
  | v :: rest => projectErrors v :: projectErrorsElems rest
end

/-
Whether a bigint occurs at a position that JSON-style serialization (with
errorReplacer) visits: directly, under object fields, under array
elements, or under the cause of an Error (the name, message and stack of
an Error are strings, and its other properties are not serialized).
Circular structures, the other source of JSON.stringify exceptions, are
not representable in the inductive value model.
-/
mutual
def bigintReach : JSValue → Bool
  | .bigint _ => true
  | .obj fs => bigintReachFields fs
  | .arr es => bigintReachElems es
  | .jsError _ _ _ c =>
      match c with
      | some cv => bigintReach cv
      | none => false
  | _ => false
def bigintReachFields : List (String × JSValue) → Bool
  | [] => false
  | (_, v) :: rest => bigintReach v || bigintReachFields rest
def bigintReachElems : List JSValue → Bool
  | [] => false
  | v :: rest => bigintReach v || bigintReachElems rest
end

/-- Conversion of the JSON.stringify result back to the JavaScript value
returned by normalizeArgument (undefined when stringify yields no text). -/
def jsOfSer : Option String → JSValue
  | some s => .str s
  | none => .undefined

/-- The normalizeArgument function from logger.ts: the typeof switch lets
string, number, boolean, undefined, symbol and bigint values through
unchanged, returns null for null, and falls through to
JSON.stringify(v, errorReplacer) for every other value (objects, arrays,
Error instances, and functions, whose typeof is neither handled case). -/
def normalizeArgument (v : JSValue) : Except Unit JSValue :=
  match v with
  | .str s => .ok (.str s)
  | .num n => .ok (.num n)
  | .bool b => .ok (.bool b)
  | .undefined => .ok .undefined
  | .sym d => .ok (.sym d)
  | .bigint n => .ok (.bigint n)
  | .null => .ok .null
  | .func => (stringifyWithReplacer .func).map jsOfSer
  | .obj fs => (stringifyWithReplacer (.obj fs)).map jsOfSer
  | .arr es => (stringifyWithReplacer (.arr es)).map jsOfSer
  | .jsError n m s c => (stringifyWithReplacer (.jsError n m s c)).map jsOfSer

/-- Values the typeof switch of normalizeArgument passes through unchanged
(null included: the object case returns null itself). -/
def isPassthrough : JSValue → Bool
  | .str _ => true
  | .num _ => true
  | .bool _ => true
  | .null => true
  | .undefined => true
  | .sym _ => true
  | .bigint _ => true
  | _ => false

/-- Structured values in the sense of the spec (typeof object and not
null): plain objects, arrays and Error instances. -/
def isObjectLike : JSValue → Bool
  | .obj _ => true
  | .arr _ => true
  | .jsError _ _ _ _ => true
  | _ => false

/-
Default string coercion, as performed by the template literal inside the
stringified function of logger.ts.  The result is Option String because
ToString applied to a symbol throws a TypeError (modelled as none).
Arrays coerce through Array.prototype.join: elements that are null or
undefined contribute the empty string, the rest are coerced recursively.
An Error coerces through Error.prototype.toString (name, then ": " and
the message when the message is nonempty).  The source text of a function
value is abstracted to a fixed string.
-/
mutual
def jsToString : JSValue → Option String
  | .str s => some s
  | .num n => some (toString n)
  | .bool b => some (cond b "true" "false")
  | .null => some "null"
  | .undefined => some "undefined"
  | .sym _ => none
  | .bigint n => some (toString n)
  | .func => some "function () \x7b\x7d"
  | .obj _ => some "[object Object]"
  | .arr es =>
      match jsToStringElems es with
      | some parts => some (String.intercalate "," parts)
      | none => none
  | .jsError n m _ _ => some (if m = "" then n else n ++ ": " ++ m)
def jsToStringElems : List JSValue → Option (List String)
  | [] => some []
  | v :: rest =>
      let s? :=
        match v with
        | .null => some ""
        | .undefined => some ""
        | w => jsToString w
      match s?, jsToStringElems rest with
      | some s, some tail => some (s :: tail)
      | _, _ => none
end

/-- Rendering of one Context entry inside stringified: the bare key when
the value is undefined, otherwise key=value through string coercion. -/
def tokenOf (k : String) (v : JSValue) : Option String :=
  match v with
  | .undefined => some k
  | w =>
      match jsToString w with
      | some s => some (k ++ "=" ++ s)
      | none => none

/-- Token list for the entries of a Context, in insertion order (none when
a string coercion throws). -/
def ctxTokens : Context → Option (List String)
  | [] => some []
  | (k, v) :: rest =>
      match tokenOf k v, ctxTokens rest with
      | some t, some ts => some (t :: ts)
      | _, _ => none

/-- The stringified function from logger.ts: iterates
Object.entries(context ?? \x7b\x7d) and pushes the rendered token for each
entry. -/
def stringified (context : Option Context) : Option (List String) :=
  ctxTokens (context.getD [])

/-- Elementwise normalization, as performed by args.map(normalizeArgument)
(the first thrown exception propagates). -/
def normalizeAll : List JSValue → Except Unit (List JSValue)
  | [] => .ok []
  | v :: rest =>
      match normalizeArgument v, normalizeAll rest with
      | .error e, _ => .error e
      | .ok _, .error e => .error e
      | .ok n, .ok tail => .ok (n :: tail)

/-- One console line: the stream selected by the level, and the argument
list passed to the console method. -/
structure ConsoleLine where
  stream : LogLevel
  tokens : List JSValue

/-- The consoleLogSink from logger.ts:
console[level](...stringified(context), ...args.map(normalizeArgument)).
Rendered context tokens come first, then the normalized caller arguments;
an exception from either spread argument propagates before anything is
emitted. -/
def consoleLogSink (level : LogLevel) (context : Option Context)
    (args : List JSValue) : Except Unit ConsoleLine :=
  match stringified context with
  | none => .error ()
  | some toks =>
      match normalizeAll args with
      | .error e => .error e
      | .ok normed => .ok ⟨level, toks.map JSValue.str ++ normed⟩

/-- Log line level tags (source name: the logLevelPrefix record), uniform
3-character strings used by the node console sink. -/
def logLevelTag : LogLevel → String
  | .error => "ERR"
  | .warn => "WRN"
  | .info => "INF"
  | .debug => "DBG"

/-- The nodeConsoleLogSink from logger.ts: identical to consoleLogSink but
with the level tag prepended before the context tokens. -/
def nodeConsoleLogSink (level : LogLevel) (context : Option Context)
    (args : List JSValue) : Except Unit ConsoleLine :=
  match stringified context with
  | none => .error ()
  | some toks =>
      match normalizeAll args with
      | .error e => .error e
      | .ok normed =>
          .ok ⟨level, JSValue.str (logLevelTag level) :: (toks.map JSValue.str ++ normed)⟩

/-- One invocation of the log method of a LogSink: the level, Context and
argument tuple passed to it.  A bound logger method is modelled by the
SinkCall it performs when applied to its arguments. -/
structure SinkCall where
  level : LogLevel
  context : Option Context
  args : List JSValue

/-- Model of a LogSink as seen by the binder and by TeeLogSink: whether
its log method throws (its other observable behavior is the SinkCall
trace recorded for it), and its optional flush, modelled by the completion
time of the returned promise. -/
structure LogSink where
  throwsOnLog : Bool
  flush : Option Nat

/-- The impl closure inside the OptionalLoggerImpl constructor: the bound
method for level X calls logSink.log(X, context, ...args). -/
def implSlot (X : LogLevel) (context : Option Context) : List JSValue → SinkCall :=
  fun args => ⟨X, context, args⟩

/-- Slot assignment performed by the fallthrough switch in the
OptionalLoggerImpl constructor, unrolled per constructed level: the case
for debug falls through to info, warn and error; info falls through to
warn and error; warn falls through to error; error assigns only error.
Slots not assigned keep their undefined initializer (none). -/
def implSlots (level : LogLevel) (context : Option Context) :
    LogLevel → Option (List JSValue → SinkCall) :=
  fun X =>
    match level, X with
    | .debug, _ => some (implSlot X context)
    | .info, .debug => none
    | .info, _ => some (implSlot X context)
    | .warn, .debug => none
    | .warn, .info => none
    | .warn, _ => some (implSlot X context)
    | .error, .error => some (implSlot .error context)
    | .error, _ => none

/-- Result of calling the always-present flush member of an
OptionalLoggerImpl: logSink.flush?.() ?? Promise.resolve() either
delegates to the flush of the sink or resolves immediately. -/
inductive FlushResult where
  | delegated : Nat → FlushResult
  | immediate : FlushResult
deriving DecidableEq, Repr

/-- Evaluation of logSink.flush?.() ?? Promise.resolve(). -/
def flushImpl (sink : LogSink) : FlushResult :=
  match sink.flush with
  | some t => .delegated t
  | none => .immediate

/-- The OptionalLogger interface from logger.ts: four optional level
methods plus an optional flush member. -/
structure OptionalLogger where
  debug : Option (List JSValue → SinkCall)
  info : Option (List JSValue → SinkCall)
  warn : Option (List JSValue → SinkCall)
  error : Option (List JSValue → SinkCall)
  flush : Option FlushResult

/-- The OptionalLoggerImpl constructor from logger.ts applied to
(logSink, level, context): slots filled by the fallthrough switch, flush
always assigned. -/
def OptionalLoggerImpl (sink : LogSink) (level : LogLevel)
    (context : Option Context) : OptionalLogger :=
  ⟨implSlots level context .debug,
   implSlots level context .info,
   implSlots level context .warn,
   implSlots level context .error,
   some (flushImpl sink)⟩

/-- Projection of the slot for a given level out of an OptionalLogger. -/
def OptionalLogger.slot (l : OptionalLogger) : LogLevel → Option (List JSValue → SinkCall)
  | .debug => l.debug
  | .info => l.info
  | .warn => l.warn
  | .error => l.error

/-- Slot sets stated by the spec for each bound level (spec-side
formulation, for comparison with the constructed logger). -/
def specSlotLevels : LogLevel → List LogLevel
  | .error => [.error]
  | .warn => [.error, .warn]
  | .info => [.error, .warn, .info]
  | .debug => [.error, .warn, .info, .debug]

/-- The LogContext class from logger.ts: an immutable triple of level,
optional Context and sink.  The sink type is kept abstract (the class
stores the reference it was given and never inspects it when deriving). -/
structure LogContext (S : Type) where
  level : LogLevel
  context : Option Context
  logSink : S

/-- The withContext method: a new LogContext with the same level and sink
and with the Context extended by the given key and value (an omitted value
is undefined). -/
def LogContext.withContext {S : Type} (lc : LogContext S) (key : String)
    (value : JSValue) : LogContext S :=
  ⟨lc.level, some (extend lc.context key value), lc.logSink⟩

/-- Slots of the OptionalLogger a LogContext binds through its super call
(OptionalLoggerImpl with the own level and context of the LogContext). -/
def LogContext.logger {S : Type} (lc : LogContext S) :
    LogLevel → Option (List JSValue → SinkCall) :=
  implSlots lc.level lc.context

/-- The loop body of TeeLogSink.log, with the position of the current
sub-sink tracked: each sub-sink in turn receives
logger.log(level, context, ...args); a throwing sub-sink ends the loop and
the exception propagates (second component true). -/
def teeLogGo (level : LogLevel) (context : Option Context)
    (args : List JSValue) : Nat → List LogSink → List (Nat × SinkCall) × Bool
  | _, [] => ([], false)
  | i, s :: rest =>
      if s.throwsOnLog then ([(i, ⟨level, context, args⟩)], true)
      else
        let r := teeLogGo level context args (i + 1) rest
        ((i, ⟨level, context, args⟩) :: r.1, r.2)

/-- TeeLogSink.log from logger.ts: the for-of loop over the sub-sinks.
Returns the trace of sub-sink invocations (position of the sub-sink and
tuple delivered to it) and whether an exception escaped the loop. -/
def TeeLogSink.log (sinks : List LogSink) (level : LogLevel)
    (context : Option Context) (args : List JSValue) : List (Nat × SinkCall) × Bool :=
  teeLogGo level context args 0 sinks

/-- Position of the first sub-sink whose log throws (length if none). -/
def firstThrowIdx (sinks : List LogSink) : Nat :=
  sinks.findIdx (fun s => s.throwsOnLog)

/-- The promises produced by this.#sinks.map(logger => logger.flush?.()):
some t is a flush promise completing at time t, none is the undefined
returned by the optional call on a sub-sink without flush. -/
def TeeLogSink.flushPromises (sinks : List LogSink) : List (Option Nat) :=
  sinks.map (fun s => s.flush)

/-- Promise.all over the completion-time model: undefined entries are
already resolved (time 0) and the aggregate completes when the last
promise completes. -/
def promiseAll (ps : List (Option Nat)) : Nat :=
  (ps.map (fun p => p.getD 0)).foldr max 0

/-- TeeLogSink.flush from logger.ts: await Promise.all over the optional
flush calls of all sub-sinks; the result is the completion time. -/
def TeeLogSink.flush (sinks : List LogSink) : Nat :=
  promiseAll (TeeLogSink.flushPromises sinks)

/-- The inlined jsError case of stringifyWithReplacer agrees with applying
errorReplacer and serializing the resulting plain record (the walk applies
the replacer to each property value, here via the recursive call on the
cause). -/
theorem stringifyWithReplacer_jsError (n m s : String) (c : Option JSValue) :
    stringifyWithReplacer (.jsError n m s c) =
      stringifyWithReplacer (errorReplacer (.jsError n m s c)) := by
  cases c with
  | none => simp [errorReplacer, stringifyWithReplacer, stringifyFieldsWith]
  | some cv =>
      simp only [errorReplacer, stringifyWithReplacer, stringifyFieldsWith]
      cases h : stringifyWithReplacer cv with
      | error e => simp [stringifyWithReplacer, stringifyFieldsWith, h]
      | ok s? => cases s? <;> simp [stringifyWithReplacer, stringifyFieldsWith, h]

/-- Lookup after setKey at the written key yields the new value. -/
theorem lookup_setKey_self (l : List (String × JSValue)) (k : String) (v : JSValue) :
    lookupCtx (setKey l k v) k = some v := by
  induction l with
  | nil => simp [setKey, lookupCtx]
  | cons kv rest ih =>
      obtain ⟨k0, v0⟩ := kv
      by_cases h : k0 = k
      · simp [setKey, h, lookupCtx]
      · simp [setKey, h, lookupCtx, ih]

/-- Lookup after setKey at any other key is unchanged. -/
theorem lookup_setKey_other (l : List (String × JSValue)) (k : String) (v : JSValue)
    (k' : String) (hne : k' ≠ k) :
    lookupCtx (setKey l k v) k' = lookupCtx l k' := by
  have hkk : ¬ k = k' := fun hh => hne hh.symm
  induction l with
  | nil => simp [setKey, lookupCtx, hkk]
  | cons kv rest ih =>
      obtain ⟨k0, v0⟩ := kv
      by_cases h : k0 = k
      · subst h
        simp [setKey, lookupCtx, hkk]
      · simp only [setKey, h, if_false, lookupCtx]
        by_cases h' : k0 = k'
        · simp [h']
        · simp [h', ih]

/-- Writing a key that is not present appends the pair at the end. -/
theorem setKey_fresh (l : List (String × JSValue)) (k : String) (v : JSValue)
    (hfresh : k ∉ ctxKeys l) :
    setKey l k v = l ++ [(k, v)] := by
  induction l with
  | nil => simp [setKey]
  | cons kv rest ih =>
      obtain ⟨k0, v0⟩ := kv
      simp only [ctxKeys, List.map_cons, List.mem_cons, not_or] at hfresh
      have h0 : ¬ k0 = k := fun hh => hfresh.1 hh.symm
      have hrest : k ∉ ctxKeys rest := hfresh.2
      simp [setKey, h0, ih hrest]

/-- Keys after setKey: the written key is appended when fresh, otherwise
the key list is unchanged. -/
theorem ctxKeys_setKey_fresh (l : List (String × JSValue)) (k : String) (v : JSValue)
    (hfresh : k ∉ ctxKeys l) :
    ctxKeys (setKey l k v) = ctxKeys l ++ [k] := by
  rw [setKey_fresh l k v hfresh]
  simp [ctxKeys]

/-- Context tokens of an appended list: both parts rendered in order. -/
theorem ctxTokens_append (c1 c2 : Context) :
    ctxTokens (c1 ++ c2) =
      match ctxTokens c1, ctxTokens c2 with
      | some t1, some t2 => some (t1 ++ t2)
      | _, _ => none := by
  induction c1 with
  | nil =>
      simp only [List.nil_append]
      cases ctxTokens c2 <;> simp [ctxTokens]
  | cons kv rest ih =>
      obtain ⟨k, v⟩ := kv
      show ctxTokens ((k, v) :: (rest ++ c2)) = _
      simp only [ctxTokens, ih]
      cases tokenOf k v <;> cases ctxTokens rest <;> cases ctxTokens c2 <;> simp

/-- Every natural number in a list is bounded by the foldr max. -/
theorem mem_le_foldrMax (l : List Nat) (x : Nat) (hx : x ∈ l) :
    x ≤ l.foldr max 0 := by
  induction l with
  | nil => cases hx
  | cons a rest ih =>
      rcases List.mem_cons.mp hx with h | h
      · subst h; exact Nat.le_max_left _ _
      · exact le_trans (ih h) (Nat.le_max_right _ _)

/-- C1: for every sink and level, the constructed OptionalLogger exposes
exactly the slot set the spec assigns to that level (error only for error,
error and warn for warn, and so on); every other slot is strictly absent
(none, the undefined initializer), and a present slot for level X, applied
to args, performs the sink call log(X, context, ...args). -/
theorem C1_slot_sets (sink : LogSink) (level : LogLevel) (ctx : Option Context)
    (X : LogLevel) :
    ((OptionalLoggerImpl sink level ctx).slot X =
      if X ∈ specSlotLevels level then some (implSlot X ctx) else none) ∧
    (∀ args : List JSValue, implSlot X ctx args = ⟨X, ctx, args⟩) := by
  refine ⟨?_, fun args => rfl⟩
  cases level <;> cases X <;>
    simp [OptionalLoggerImpl, OptionalLogger.slot, implSlots, specSlotLevels, implSlot]

/-- C4: logging once through a tee of two non-throwing sub-sinks delivers
exactly one call to each, in order, both receiving the tuple given to the
tee, and no exception escapes. -/
theorem C4_tee_fanout (s1 s2 : LogSink) (level : LogLevel) (ctx : Option Context)
    (args : List JSValue) (h1 : s1.throwsOnLog = false) (h2 : s2.throwsOnLog = false) :
    TeeLogSink.log [s1, s2] level ctx args =
      ([(0, ⟨level, ctx, args⟩), (1, ⟨level, ctx, args⟩)], false) := by
  simp [TeeLogSink.log, teeLogGo, h1, h2]

/-- Witness for C4 at two concrete non-throwing sub-sinks. -/
theorem C4_tee_fanout_witness :
    TeeLogSink.log [⟨false, none⟩, ⟨false, none⟩] .info none [.str "m"] =
      ([(0, ⟨.info, none, [.str "m"]⟩), (1, ⟨.info, none, [.str "m"]⟩)], false) :=
  C4_tee_fanout ⟨false, none⟩ ⟨false, none⟩ .info none [.str "m"] rfl rfl

/-- C5: withContext returns a new LogContext with the same level and the
same sink and with the Context extended by the given key and value, and the
parent is untouched: every present slot of the parent still performs a
sink call carrying the parent level and the parent Context (withContext is
modelled as the pure function the source spread expression computes; no
field of the parent is written). -/
theorem C5_withContext_pure (S : Type) (lc : LogContext S) (k : String) (v : JSValue) :
    (lc.withContext k v).level = lc.level ∧
    (lc.withContext k v).logSink = lc.logSink ∧
    (lc.withContext k v).context = some (extend lc.context k v) ∧
    (∀ X f args, lc.logger X = some f → f args = ⟨X, lc.context, args⟩) := by
  refine ⟨rfl, rfl, rfl, ?_⟩
  intro X f args h
  obtain ⟨level, context, sinkRef⟩ := lc
  cases level <;> cases X <;>
    simp [LogContext.logger, implSlots, implSlot] at h <;>
    (subst h; rfl)

/-- Witness for C5: a concrete parent still logs with its own context
after a derivation. -/
theorem C5_withContext_pure_witness :
    ((⟨.info, none, 7⟩ : LogContext Nat).withContext "a" (.str "b")).context =
      some (extend none "a" (.str "b")) ∧
    (implSlot .info none) [.str "m"] = ⟨.info, none, [.str "m"]⟩ :=
  ⟨(C5_withContext_pure Nat ⟨.info, none, 7⟩ "a" (.str "b")).2.2.1,
   (C5_withContext_pure Nat ⟨.info, none, 7⟩ "a" (.str "b")).2.2.2 .info
     (implSlot .info none) [.str "m"] rfl⟩

/-- C6: context extension is right-biased and non-destructive: the
extended Context holds the new value at the written key (also when the key
was already present, newest value winning, and also when the value is the
present-with-no-value undefined), every other key is unchanged, and
extending an absent base behaves as extending the empty Context (the base
itself is a value and is not mutated). -/
theorem C6_extend_right_biased (base : Option Context) (k : String) (v : JSValue) :
    lookupCtx (extend base k v) k = some v ∧
    (∀ k', k' ≠ k → lookupCtx (extend base k v) k' = lookupCtx (base.getD []) k') ∧
    extend none k v = extend (some []) k v := by
  refine ⟨lookup_setKey_self _ _ _, fun k' hne => lookup_setKey_other _ _ _ _ hne, rfl⟩

/-- Witness for C6: overwriting a present key keeps the other entry. -/
theorem C6_extend_right_biased_witness :
    lookupCtx (extend (some [("k", .num 1), ("j", .num 3)]) "k" (.num 2)) "k" =
      some (.num 2) ∧
    lookupCtx (extend (some [("k", .num 1), ("j", .num 3)]) "k" (.num 2)) "j" =
      lookupCtx [("k", .num 1), ("j", .num 3)] "j" :=
  ⟨(C6_extend_right_biased (some [("k", .num 1), ("j", .num 3)]) "k" (.num 2)).1,
   (C6_extend_right_biased (some [("k", .num 1), ("j", .num 3)]) "k" (.num 2)).2.1 "j"
     (by decide)⟩

/-- C9: the flush of a tee invokes the flush of every sub-sink that has
one and completes exactly when the last of those completes: the completion
time is the maximum over the defined sub-flushes (so none of them is
skipped and each one has completed by then), sub-sinks without flush are
already resolved and contribute nothing, and with no defined sub-flush the
tee flush completes immediately (time 0). -/
theorem C9_tee_flush (sinks : List LogSink) :
    TeeLogSink.flush sinks = (sinks.filterMap (fun s => s.flush)).foldr max 0 ∧
    (∀ s ∈ sinks, ∀ t, s.flush = some t → t ≤ TeeLogSink.flush sinks) ∧
    ((∀ s ∈ sinks, s.flush = none) → TeeLogSink.flush sinks = 0) := by
  have hcons : ∀ (p : Option Nat) (ps : List (Option Nat)),
      promiseAll (p :: ps) = max (p.getD 0) (promiseAll ps) := by
    intro p ps
    simp [promiseAll]
  have hmain : TeeLogSink.flush sinks = (sinks.filterMap (fun s => s.flush)).foldr max 0 := by
    induction sinks with
    | nil => rfl
    | cons s rest ih =>
        simp only [TeeLogSink.flush, TeeLogSink.flushPromises, List.map_cons,
          List.filterMap_cons] at ih ⊢
        rw [hcons]
        cases h : s.flush with
        | none => simp [h, ih]
        | some t => simp [h, ih]
  refine ⟨hmain, ?_, ?_⟩
  · intro s hs t ht
    rw [hmain]
    exact mem_le_foldrMax _ _ (List.mem_filterMap.mpr ⟨s, hs, by rw [ht]⟩)
  · intro hall
    rw [hmain]
    have : sinks.filterMap (fun s => s.flush) = [] := by
      rw [List.filterMap_eq_nil_iff]
      intro s hs
      rw [hall s hs]
    rw [this]
    rfl

/-- Witness for C9 at a mix of flushing and non-flushing sub-sinks. -/
theorem C9_tee_flush_witness :
    3 ≤ TeeLogSink.flush [⟨false, some 3⟩, ⟨false, none⟩, ⟨false, some 1⟩] :=
  (C9_tee_flush [⟨false, some 3⟩, ⟨false, none⟩, ⟨false, some 1⟩]).2.1
    ⟨false, some 3⟩ (by simp) 3 rfl

/-- C10: the OptionalLogger built by the binder always has its flush
member present, at every level; calling it delegates to the flush of the
sink when the sink defines one and otherwise resolves immediately. -/
theorem C10_flush_always_present (sink : LogSink) (level : LogLevel)
    (ctx : Option Context) :
    (OptionalLoggerImpl sink level ctx).flush = some (flushImpl sink) ∧
    (∀ t, sink.flush = some t → flushImpl sink = .delegated t) ∧
    (sink.flush = none → flushImpl sink = .immediate) := by
  refine ⟨?_, ?_, ?_⟩
  · cases level <;> rfl
  · intro t ht
    simp [flushImpl, ht]
  · intro ht
    simp [flushImpl, ht]

/-- Witness for C10 at a sink with a flush and at the most verbose level. -/
theorem C10_flush_always_present_witness :
    (OptionalLoggerImpl ⟨false, some 5⟩ .debug none).flush = some (.delegated 5) := by
  have h := C10_flush_always_present ⟨false, some 5⟩ .debug none
  rw [h.1, h.2.1 5 rfl]

/-- Shifted description of the tee loop trace: starting at position i, the
delivered calls are one per sub-sink up to and including the first
throwing one, each with the tuple given to the tee, and the exception flag
is set exactly when some sub-sink throws. -/
theorem teeLogGo_eq (level : LogLevel) (ctx : Option Context) (args : List JSValue) :
    ∀ (sinks : List LogSink) (i : Nat),
      teeLogGo level ctx args i sinks =
        ((List.range (min (firstThrowIdx sinks + 1) sinks.length)).map
          (fun j => (i + j, (⟨level, ctx, args⟩ : SinkCall))),
         sinks.any (fun s => s.throwsOnLog)) := by
  intro sinks
  induction sinks with
  | nil =>
      intro i
      simp [teeLogGo, firstThrowIdx]
  | cons s rest ih =>
      intro i
      cases h : s.throwsOnLog with
      | true =>
          have hidx : firstThrowIdx (s :: rest) = 0 := by
            simp [firstThrowIdx, List.findIdx_cons, h]
          have hone : List.range 1 = [0] := rfl
          simp [teeLogGo, h, hidx, List.any_cons, hone]
      | false =>
          have hidx : firstThrowIdx (s :: rest) = firstThrowIdx rest + 1 := by
            simp [firstThrowIdx, List.findIdx_cons, h]
          have hrange : ∀ m : Nat,
              (List.range (m + 1)).map (fun j => (i + j, (⟨level, ctx, args⟩ : SinkCall))) =
                (i, (⟨level, ctx, args⟩ : SinkCall)) ::
                  (List.range m).map (fun j => (i + 1 + j, (⟨level, ctx, args⟩ : SinkCall))) := by
            intro m
            rw [List.range_succ_eq_map, List.map_cons, List.map_map]
            refine congrArg₂ _ (by simp) ?_
            apply List.map_congr_left
            intro j _
            simp [Function.comp, Prod.ext_iff]
            omega
          have hmin : min (firstThrowIdx (s :: rest) + 1) (s :: rest).length =
              min (firstThrowIdx rest + 1) rest.length + 1 := by
            rw [hidx]
            simp [List.length_cons]
            omega
          simp only [teeLogGo, h, ih (i + 1), hmin, hrange, List.any_cons, Bool.false_or]
          simp

/-- C3 counterexample: with a first sub-sink whose log throws and a second
that records, one log call through the tee delivers only to position 0 and
lets the exception escape; the second sub-sink receives zero calls, so a
throwing sub-sink does prevent delivery to the remaining sub-sinks (the
for loop has no exception handling and stops on the first failure),
contrary to the claim. -/
theorem C3_counterexample :
    (TeeLogSink.log [⟨true, none⟩, ⟨false, none⟩] .info none [.str "m"]).1.map Prod.fst
        = [0] ∧
    (TeeLogSink.log [⟨true, none⟩, ⟨false, none⟩] .info none [.str "m"]).2 = true := by
  constructor <;> rfl

/-- C3 amended: a log call on the tee delivers the identical
(level, context, args) tuple to the sub-sinks in order, one call each, up
to and including the first sub-sink whose log throws; that exception then
propagates and the remaining sub-sinks receive nothing (with no throwing
sub-sink, every sub-sink receives exactly one call). -/
theorem C3_tee_stops_at_first_throw (sinks : List LogSink) (level : LogLevel)
    (ctx : Option Context) (args : List JSValue) :
    TeeLogSink.log sinks level ctx args =
      ((List.range (min (firstThrowIdx sinks + 1) sinks.length)).map
        (fun j => (j, (⟨level, ctx, args⟩ : SinkCall))),
       sinks.any (fun s => s.throwsOnLog)) := by
  rw [TeeLogSink.log, teeLogGo_eq]
  simp

/-- Mapping the payload of an Except does not change whether it is an
exception. -/
theorem except_map_error_iff {α β : Type} (e : Except Unit α) (f : α → β) :
    (e.map f = Except.error ()) ↔ e = Except.error () := by
  cases e with
  | error u => cases u; simp [Except.map]
  | ok a => simp [Except.map]

/-
Characterization of the exceptions of the modelled
JSON.stringify(v, errorReplacer): it throws exactly when a bigint occurs
at a serialized position.
-/
mutual
theorem stringify_error_iff : ∀ v : JSValue,
    (stringifyWithReplacer v = .error ()) ↔ bigintReach v = true
  | .str s => by simp [stringifyWithReplacer, bigintReach]
  | .num n => by simp [stringifyWithReplacer, bigintReach]
  | .bool b => by simp [stringifyWithReplacer, bigintReach]
  | .null => by simp [stringifyWithReplacer, bigintReach]
  | .undefined => by simp [stringifyWithReplacer, bigintReach]
  | .sym d => by simp [stringifyWithReplacer, bigintReach]
  | .bigint n => by simp [stringifyWithReplacer, bigintReach]
  | .func => by simp [stringifyWithReplacer, bigintReach]
  | .obj fs => by
      simp only [bigintReach]
      rw [← stringifyFields_error_iff fs]
      cases hf : stringifyFieldsWith fs with
      | error e => cases e; simp [stringifyWithReplacer, hf]
      | ok parts => simp [stringifyWithReplacer, hf]
  | .arr es => by
      simp only [bigintReach]
      rw [← stringifyElems_error_iff es]
      cases he : stringifyElemsWith es with
      | error e => cases e; simp [stringifyWithReplacer, he]
      | ok parts => simp [stringifyWithReplacer, he]
  | .jsError n m s c => by
      cases c with
      | none => simp [stringifyWithReplacer, bigintReach]
      | some cv =>
          simp only [bigintReach]
          rw [← stringify_error_iff cv]
          cases hc : stringifyWithReplacer cv with
          | error e => cases e; simp [stringifyWithReplacer, hc]
          | ok s? => cases s? <;> simp [stringifyWithReplacer, hc]
theorem stringifyFields_error_iff : ∀ fs : List (String × JSValue),
    (stringifyFieldsWith fs = .error ()) ↔ bigintReachFields fs = true
  | [] => by simp [stringifyFieldsWith, bigintReachFields]
  | (k, v) :: rest => by
      simp only [bigintReachFields, Bool.or_eq_true]
      rw [← stringify_error_iff v, ← stringifyFields_error_iff rest]
      cases h1 : stringifyWithReplacer v with
      | error e =>
          cases e
          simp [stringifyFieldsWith, h1]
      | ok s? =>
          cases h2 : stringifyFieldsWith rest with
          | error e => cases e; cases s? <;> simp [stringifyFieldsWith, h1, h2]
          | ok tail => cases s? <;> simp [stringifyFieldsWith, h1, h2]
theorem stringifyElems_error_iff : ∀ es : List JSValue,
    (stringifyElemsWith es = .error ()) ↔ bigintReachElems es = true
  | [] => by simp [stringifyElemsWith, bigintReachElems]
  | v :: rest => by
      simp only [bigintReachElems, Bool.or_eq_true]
      rw [← stringify_error_iff v, ← stringifyElems_error_iff rest]
      cases h1 : stringifyWithReplacer v with
      | error e =>
          cases e
          simp [stringifyElemsWith, h1]
      | ok s? =>
          cases h2 : stringifyElemsWith rest with
          | error e => cases e; simp [stringifyElemsWith, h1, h2]
          | ok tail => simp [stringifyElemsWith, h1, h2]
end

/-- C2 counterexample: the normalizer does throw: an object holding a
bigint property is rejected by JSON-style serialization (a TypeError) and
normalizeArgument propagates the exception instead of falling back to a
default string form (there is no exception handling around
JSON.stringify in the source), contrary to the claim that the normalizer
returns a result without throwing for every input value. -/
theorem C2_counterexample :
    normalizeArgument (.obj [("a", .bigint 1)]) = .error () := by
  simp [normalizeArgument, stringifyWithReplacer, stringifyFieldsWith, Except.map]

/-- C2 amended: primitive inputs (string, number, boolean, null,
undefined, symbol, bigint) are returned unchanged and never throw; for
every other input the normalizer throws precisely when the value cannot be
structurally serialized, namely when a bigint occurs at a serialized
position (the other JSON.stringify failure, a circular structure, is not
representable in the inductive value model), and the exception propagates
out of the logging call with no fallback to a default string form. -/
theorem C2_normalizer_throws (v : JSValue) :
    (isPassthrough v = true → normalizeArgument v = .ok v) ∧
    (normalizeArgument v = .error () ↔ (isPassthrough v = false ∧ bigintReach v = true)) := by
  constructor
  · intro hp
    cases v <;> simp_all [isPassthrough, normalizeArgument]
  · cases v <;>
      simp [normalizeArgument, isPassthrough, except_map_error_iff,
        stringify_error_iff, bigintReach]

/-- Witness for C2: a string passes through unchanged, and a bigint nested
in an object makes the normalizer throw. -/
theorem C2_normalizer_throws_witness :
    normalizeArgument (.str "hi") = .ok (.str "hi") ∧
    normalizeArgument (.obj [("c", .bigint 3)]) = .error () :=
  ⟨(C2_normalizer_throws (.str "hi")).1 rfl,
   (C2_normalizer_throws (.obj [("c", .bigint 3)])).2.mpr
     ⟨rfl, by simp [bigintReach, bigintReachFields]⟩⟩

/-
Refinement between the one-step-replacer serialization performed by the
source and the deep projection described by the spec: serializing with
errorReplacer equals first replacing every Error at any depth by its plain
record (cause projected recursively) and then serializing with no
replacer.
-/
mutual
theorem stringify_proj : ∀ v : JSValue,
    stringifyWithReplacer v = plainStringify (projectErrors v)
  | .str s => by simp [stringifyWithReplacer, plainStringify, projectErrors]
  | .num n => by simp [stringifyWithReplacer, plainStringify, projectErrors]
  | .bool b => by simp [stringifyWithReplacer, plainStringify, projectErrors]
  | .null => by simp [stringifyWithReplacer, plainStringify, projectErrors]
  | .undefined => by simp [stringifyWithReplacer, plainStringify, projectErrors]
  | .sym d => by simp [stringifyWithReplacer, plainStringify, projectErrors]
  | .bigint n => by simp [stringifyWithReplacer, plainStringify, projectErrors]
  | .func => by simp [stringifyWithReplacer, plainStringify, projectErrors]
  | .obj fs => by
      have ih := stringifyFields_proj fs
      simp only [projectErrors]
      cases hf : stringifyFieldsWith fs with
      | error e =>
          cases e
          have hf' : plainStringifyFields (projectErrorsFields fs) = .error () := by
            rw [← ih, hf]
          simp [stringifyWithReplacer, hf, plainStringify, hf']
      | ok parts =>
          have hf' : plainStringifyFields (projectErrorsFields fs) = .ok parts := by
            rw [← ih, hf]
          simp [stringifyWithReplacer, hf, plainStringify, hf']
  | .arr es => by
      have ih := stringifyElems_proj es
      simp only [projectErrors]
      cases he : stringifyElemsWith es with
      | error e =>
          cases e
          have he' : plainStringifyElems (projectErrorsElems es) = .error () := by
            rw [← ih, he]
          simp [stringifyWithReplacer, he, plainStringify, he']
      | ok parts =>
          have he' : plainStringifyElems (projectErrorsElems es) = .ok parts := by
            rw [← ih, he]
          simp [stringifyWithReplacer, he, plainStringify, he']
  | .jsError n m s c => by
      cases c with
      | none =>
          simp [stringifyWithReplacer, projectErrors, plainStringify, plainStringifyFields]
      | some cv =>
          have ih := stringify_proj cv
          simp only [projectErrors]
          cases hc : stringifyWithReplacer cv with
          | error e =>
              cases e
              have hc' : plainStringify (projectErrors cv) = .error () := by rw [← ih, hc]
              simp [stringifyWithReplacer, hc, plainStringify, plainStringifyFields, hc']
          | ok s? =>
              have hc' : plainStringify (projectErrors cv) = .ok s? := by rw [← ih, hc]
              cases s? <;>
                simp [stringifyWithReplacer, hc, plainStringify, plainStringifyFields, hc']
theorem stringifyFields_proj : ∀ fs : List (String × JSValue),
    stringifyFieldsWith fs = plainStringifyFields (projectErrorsFields fs)
  | [] => by simp [stringifyFieldsWith, projectErrorsFields, plainStringifyFields]
  | (k, v) :: rest => by
      have ihv := stringify_proj v
      have ihr := stringifyFields_proj rest
      simp only [projectErrorsFields, plainStringifyFields, stringifyFieldsWith]
      rw [← ihv, ← ihr]
theorem stringifyElems_proj : ∀ es : List JSValue,
    stringifyElemsWith es = plainStringifyElems (projectErrorsElems es)
  | [] => by simp [stringifyElemsWith, projectErrorsElems, plainStringifyElems]
  | v :: rest => by
      have ihv := stringify_proj v
      have ihr := stringifyElems_proj rest
      simp only [projectErrorsElems, plainStringifyElems, stringifyElemsWith]
      rw [← ihv, ← ihr]
end

/-- Serializing an object-like value (object, array, Error) never yields
the undefined result: it either throws or produces a string. -/
theorem objectLike_stringify_not_none (v : JSValue) (hv : isObjectLike v = true) :
    stringifyWithReplacer v ≠ .ok none := by
  cases v <;> simp_all [isObjectLike]
  case obj fs =>
      cases hf : stringifyFieldsWith fs <;> simp [stringifyWithReplacer, hf]
  case arr es =>
      cases he : stringifyElemsWith es <;> simp [stringifyWithReplacer, he]
  case jsError n m s c =>
      cases c with
      | none => simp [stringifyWithReplacer]
      | some cv =>
          cases hc : stringifyWithReplacer cv with
          | error e => simp [stringifyWithReplacer, hc]
          | ok s? => cases s? <;> simp [stringifyWithReplacer, hc]

/-- C7 counterexample: an array holding a bigint is a structured value
that is not mapped to a string: JSON-style serialization rejects it and
the normalizer throws, contrary to the claim that every structured value
is mapped to a single string. -/
theorem C7_counterexample :
    isObjectLike (.arr [.bigint 5]) = true ∧
    normalizeArgument (.arr [.bigint 5]) = .error () := by
  constructor
  · rfl
  · simp [normalizeArgument, stringifyWithReplacer, stringifyElemsWith, Except.map]

/-- C7 amended: string, number, boolean, null, undefined, symbol and
bigint inputs are mapped to themselves unchanged; every other structured
value is mapped through JSON-style structural serialization in which every
Error-like value encountered at any depth is first projected to a plain
record of name, message, stack and a recursively-projected cause (the deep
projection stated by plainStringify of projectErrors), the result being a
single string except when serialization rejects the value (a nested
bigint), in which case the call throws. -/
theorem C7_normalizer_projection (v : JSValue) :
    (isPassthrough v = true → normalizeArgument v = .ok v) ∧
    (isObjectLike v = true →
      normalizeArgument v = (plainStringify (projectErrors v)).map jsOfSer) ∧
    (isObjectLike v = true →
      normalizeArgument v = .error () ∨ ∃ s, normalizeArgument v = .ok (.str s)) := by
  have hmap : isObjectLike v = true →
      normalizeArgument v = (stringifyWithReplacer v).map jsOfSer := by
    intro ho
    cases v <;> simp_all [isObjectLike, normalizeArgument]
  refine ⟨?_, ?_, ?_⟩
  · intro hp
    cases v <;> simp_all [isPassthrough, normalizeArgument]
  · intro ho
    rw [hmap ho, stringify_proj]
  · intro ho
    have hnn := objectLike_stringify_not_none v ho
    cases h : stringifyWithReplacer v with
    | error e =>
        cases e
        left
        rw [hmap ho, h]
        rfl
    | ok s? =>
        cases s? with
        | none => exact absurd h hnn
        | some s =>
            right
            exact ⟨s, by rw [hmap ho, h]; rfl⟩

/-- Witness for C7 at a two-level error chain and at a string. -/
theorem C7_normalizer_projection_witness :
    normalizeArgument (.jsError "Error" "a" "s1" (some (.jsError "TypeError" "b" "s2" none)))
      = (plainStringify (projectErrors
          (.jsError "Error" "a" "s1" (some (.jsError "TypeError" "b" "s2" none))))).map jsOfSer ∧
    normalizeArgument (.str "z") = .ok (.str "z") :=
  ⟨(C7_normalizer_projection
      (.jsError "Error" "a" "s1" (some (.jsError "TypeError" "b" "s2" none)))).2.1 rfl,
   (C7_normalizer_projection (.str "z")).1 rfl⟩

/-- For a value other than undefined, tokenOf renders key=value through
string coercion. -/
theorem tokenOf_ne_undefined (k : String) (v : JSValue) (hv : v ≠ JSValue.undefined) :
    tokenOf k v = (jsToString v).map (fun s => k ++ "=" ++ s) := by
  cases v
  case undefined => exact absurd rfl hv
  case arr es => cases h : jsToStringElems es <;> simp [tokenOf, jsToString, h]
  all_goals simp [tokenOf, jsToString]

/-- Shape of a successfully rendered Context entry: the bare key for an
undefined value, otherwise key=value with the default string form. -/
theorem tokenOf_spec (k : String) (v : JSValue) (t : String)
    (h : tokenOf k v = some t) :
    (v = JSValue.undefined ∧ t = k) ∨
    (v ≠ JSValue.undefined ∧ ∃ s, jsToString v = some s ∧ t = k ++ "=" ++ s) := by
  by_cases hv : v = JSValue.undefined
  · subst hv
    simp [tokenOf] at h
    exact Or.inl ⟨rfl, h.symm⟩
  · rw [tokenOf_ne_undefined k v hv] at h
    cases hj : jsToString v with
    | none => rw [hj] at h; cases h
    | some s =>
        rw [hj] at h
        simp at h
        exact Or.inr ⟨hv, s, rfl, h.symm⟩

/-- Entrywise correspondence between a Context and its rendered tokens:
one token per key, in insertion order. -/
theorem ctxTokens_forall2 (c : Context) (toks : List String)
    (h : ctxTokens c = some toks) :
    List.Forall₂ (fun kv t =>
      (kv.2 = JSValue.undefined ∧ t = kv.1) ∨
      (kv.2 ≠ JSValue.undefined ∧ ∃ s, jsToString kv.2 = some s ∧ t = kv.1 ++ "=" ++ s))
      c toks := by
  induction c generalizing toks with
  | nil =>
      simp [ctxTokens] at h
      subst h
      exact List.Forall₂.nil
  | cons kv rest ih =>
      obtain ⟨k, v⟩ := kv
      simp only [ctxTokens] at h
      cases htok : tokenOf k v with
      | none =>
          cases hrest : ctxTokens rest <;> rw [htok, hrest] at h <;> cases h
      | some t =>
          cases hrest : ctxTokens rest with
          | none => rw [htok, hrest] at h; cases h
          | some ts =>
              rw [htok, hrest] at h
              cases h
              exact List.Forall₂.cons (tokenOf_spec k v t htok) (ih ts hrest)

/-- C8: rendering produces one token per Context key in insertion order,
the bare key for an undefined value and key=value with the default string
form otherwise; the console sink and the node console sink emit all
rendered context tokens before the normalized message arguments (the node
sink after its level tag); and deriving withContext x=1 then withContext
y=2 renders x=1 then y=2, in that order, after the tokens of the base
Context and ahead of the message arguments. -/
theorem C8_context_rendering :
    (∀ (c : Context) (toks : List String), ctxTokens c = some toks →
      List.Forall₂ (fun kv t =>
        (kv.2 = JSValue.undefined ∧ t = kv.1) ∨
        (kv.2 ≠ JSValue.undefined ∧ ∃ s, jsToString kv.2 = some s ∧ t = kv.1 ++ "=" ++ s))
        c toks) ∧
    (∀ (level : LogLevel) (c : Context) (toks : List String) (args normed : List JSValue),
      ctxTokens c = some toks → normalizeAll args = .ok normed →
      consoleLogSink level (some c) args = .ok ⟨level, toks.map JSValue.str ++ normed⟩ ∧
      nodeConsoleLogSink level (some c) args =
        .ok ⟨level, JSValue.str (logLevelTag level) :: (toks.map JSValue.str ++ normed)⟩) ∧
    (∀ (level : LogLevel) (c0 : Context) (toks0 : List String) (args normed : List JSValue),
      "x" ∉ ctxKeys c0 → "y" ∉ ctxKeys c0 →
      ctxTokens c0 = some toks0 → normalizeAll args = .ok normed →
      consoleLogSink level
          (some (extend (some (extend (some c0) "x" (.str "1"))) "y" (.str "2"))) args =
        .ok ⟨level, (toks0 ++ ["x=1", "y=2"]).map JSValue.str ++ normed⟩) := by
  refine ⟨fun c toks h => ctxTokens_forall2 c toks h, ?_, ?_⟩
  · intro level c toks args normed hc hn
    have hs : stringified (some c) = some toks := by
      rw [stringified]
      simpa using hc
    constructor
    · simp [consoleLogSink, hs, hn]
    · simp [nodeConsoleLogSink, hs, hn]
  · intro level c0 toks0 args normed hx hy h0 hn
    have hc1 : extend (some c0) "x" (.str "1") = c0 ++ [("x", JSValue.str "1")] :=
      setKey_fresh c0 "x" (.str "1") hx
    have hyfresh : "y" ∉ ctxKeys (c0 ++ [("x", JSValue.str "1")]) := by
      simp only [ctxKeys, List.map_append, List.map_cons, List.map_nil, List.mem_append,
        List.mem_singleton, not_or]
      simp only [ctxKeys] at hy
      exact ⟨hy, by decide⟩
    have hc2 : extend (some (extend (some c0) "x" (.str "1"))) "y" (.str "2")
        = c0 ++ [("x", JSValue.str "1"), ("y", JSValue.str "2")] := by
      rw [show extend (some (extend (some c0) "x" (.str "1"))) "y" (.str "2")
            = setKey (extend (some c0) "x" (.str "1")) "y" (.str "2") from rfl,
          hc1, setKey_fresh _ _ _ hyfresh, List.append_assoc]
      rfl
    have htail : ctxTokens [("x", JSValue.str "1"), ("y", JSValue.str "2")]
        = some ["x=1", "y=2"] := by
      simp [ctxTokens, tokenOf, jsToString]
    have htoks : ctxTokens (c0 ++ [("x", JSValue.str "1"), ("y", JSValue.str "2")])
        = some (toks0 ++ ["x=1", "y=2"]) := by
      rw [ctxTokens_append, h0, htail]
    have hs : stringified
        (some (extend (some (extend (some c0) "x" (.str "1"))) "y" (.str "2")))
        = some (toks0 ++ ["x=1", "y=2"]) := by
      rw [stringified, hc2]
      simpa using htoks
    simp [consoleLogSink, hs, hn]

/-- Witness for C8: the scenario from the spec, a base context name=alice
then withContext x=1 and withContext y=2 with a hello argument. -/
theorem C8_context_rendering_witness :
    consoleLogSink .info
        (some (extend (some (extend (some [("name", JSValue.str "alice")]) "x" (.str "1")))
          "y" (.str "2")))
        [.str "hello"]
      = .ok ⟨.info, [.str "name=alice", .str "x=1", .str "y=2", .str "hello"]⟩ := by
  have h := (C8_context_rendering).2.2 .info [("name", JSValue.str "alice")] ["name=alice"]
      [.str "hello"] [.str "hello"] (by decide) (by decide)
      (by simp [ctxTokens, tokenOf, jsToString]) (by simp [normalizeAll, normalizeArgument])
  simpa using h

end RociLogger
